import Mathlib

/-!
Verification of the natural-language specification of the Python code health
checker (src/code_health_checker.py) against a shallow embedding of its core:
the docstring-range detector, the effective-line counter, the function/method
extractor and the per-file threshold aggregation.

Modelling conventions:
* Python integers are `Int`; counts are `Nat`.
* The output of `ast.parse` is modelled as `Option Module`: `none` stands for
  a `SyntaxError`, `some m` for a successfully parsed tree.  Statements carry
  the position metadata the code reads (`lineno`, optional `end_lineno`).
* Expressions never contain function or class definitions in Python, so the
  embedding keeps only the statement shapes the walker distinguishes:
  a bare string-literal expression statement (the only shape for which
  `ast.get_docstring` returns a value), any other expression statement,
  `FunctionDef`, `AsyncFunctionDef`, `ClassDef`, and a catch-all compound
  statement (`if`/`for`/`while`/`with`/...) whose children are walked.
* `set.add` over `int` is modelled as accumulation into a `List Int`;
  only membership is ever consumed.
-/

namespace CodeHealth

/-- Position metadata of an AST node: 1-indexed `lineno` (always present on
real nodes) and optional `end_lineno` (`none` models a missing or `None`
attribute, the case the code guards with `getattr`). -/
structure PosInfo where
  lineno : Int
  end_lineno : Option Int

mutual
/-- Statement shapes distinguished by `_identify_docstrings` and
`FunctionExtractor`.  `exprStr` is an `ast.Expr` whose value is a single
string constant (the docstring shape); `exprOther` is any other expression
statement; `otherStmt` is any other statement, with the child statements that
`ast.walk` / `generic_visit` descend into. -/
inductive Stmt : Type where
  | exprStr : PosInfo → String → Stmt
  | exprOther : PosInfo → Stmt
  | funcDef : PosInfo → String → StmtList → Stmt
  | asyncFuncDef : PosInfo → String → StmtList → Stmt
  | classDef : PosInfo → String → StmtList → Stmt
  | otherStmt : PosInfo → StmtList → Stmt
/-- List of statements (a `body` field), as a mutual inductive so that
structural recursion over the tree is available. -/
inductive StmtList : Type where
  | nil : StmtList
  | cons : Stmt → StmtList → StmtList
end

/-- Result of a successful `ast.parse`: an `ast.Module` with its body. -/
structure Module where
  body : StmtList

/-- View a `StmtList` as an ordinary list. -/
def StmtList.toList : StmtList → List Stmt
  | .nil => []
  | .cons s r => s :: StmtList.toList r

/-- Position metadata of a statement (every real AST statement has `lineno`). -/
def Stmt.pos : Stmt → PosInfo
  | .exprStr p _ => p
  | .exprOther p => p
  | .funcDef p _ _ => p
  | .asyncFuncDef p _ _ => p
  | .classDef p _ _ => p
  | .otherStmt p _ => p

/-- Python `range(a, b)` over integers, as the list `[a, a+1, ..., b-1]`
(empty when `b ≤ a`). -/
def intRange (a b : Int) : List Int :=
  (List.range (b - a).toNat).map (fun (k : Nat) => a + (k : Int))

/-- Python `lines[i]` indexing with negative-index wrap-around; out-of-range
access (which would raise `IndexError`, a case no analysed code path
reaches because every generated index is `< len(lines)`) returns `""`. -/
def pyGetLine (lines : List String) (i : Int) : String :=
  let j : Int := if i < 0 then (lines.length : Int) + i else i
  if 0 ≤ j ∧ j < (lines.length : Int) then lines.getD j.toNat "" else ""

/-- Python `s.count("\n")`. -/
def countNewlines (s : String) : Nat := s.toList.count '\n'

/-- Combined docstring test of `_identify_docstrings`: the node's body is
non-empty, its first statement is an `ast.Expr`, and `ast.get_docstring`
returns a value — which happens exactly when that first statement is a bare
single string-literal expression.  Returns that statement's position and the
literal text. -/
def bodyDocstring : StmtList → Option (PosInfo × String)
  | .cons (.exprStr p s) _ => some (p, s)
  | _ => none

/-- Exclusive 0-indexed end bound of a docstring's line span, as computed in
`_identify_docstrings`: `end_lineno` when the parser supplies it (1-indexed
inclusive, hence directly the exclusive 0-indexed bound), otherwise the
estimate `start + docstring.count("\n") + 1` with `start = lineno - 1`. -/
def docstringEnd (p : PosInfo) (s : String) : Int :=
  match p.end_lineno with
  | some e => e
  | none => (p.lineno - 1) + (countNewlines s : Int) + 1

/-- Indices contributed by one node's own docstring, clipped at the file
length: `range(start, min(end, len(lines)))` in `_identify_docstrings`. -/
def ownDocRange (len : Int) (body : StmtList) : List Int :=
  match bodyDocstring body with
  | some (p, s) => intRange (p.lineno - 1) (min (docstringEnd p s) len)
  | none => []

mutual
/-- Docstring line indices contributed by a statement and everything nested
inside it (`ast.walk` reaches every node; only `Module`, `FunctionDef`,
`AsyncFunctionDef` and `ClassDef` own docstrings). -/
def stmtDocRanges (len : Int) : Stmt → List Int
  | .exprStr _ _ => []
  | .exprOther _ => []
  | .funcDef _ _ body => ownDocRange len body ++ stmtListDocRanges len body
  | .asyncFuncDef _ _ body => ownDocRange len body ++ stmtListDocRanges len body
  | .classDef _ _ body => ownDocRange len body ++ stmtListDocRanges len body
  | .otherStmt _ children => stmtListDocRanges len children
/-- Docstring line indices contributed by a list of statements. -/
def stmtListDocRanges (len : Int) : StmtList → List Int
  | .nil => []
  | .cons s rest => stmtDocRanges len s ++ stmtListDocRanges len rest
end

/-- `CodeLineCounter._identify_docstrings`: on a `SyntaxError` (`none`) the
method returns with the range set left empty; otherwise it collects the
docstring spans of the module and of every nested definition. -/
def identify_docstrings (len : Int) : Option Module → List Int
  | none => []
  | some m => ownDocRange len m.body ++ stmtListDocRanges len m.body

/-- State of a constructed `CodeLineCounter`: the split physical lines and
the docstring line-index set. -/
structure CodeLineCounter where
  lines : List String
  docstring_ranges : List Int

/-- `CodeLineCounter.__init__` for a source whose physical lines are `lines`
and whose `ast.parse` outcome is `parsed`. -/
def CodeLineCounter.ofSource (lines : List String) (parsed : Option Module) :
    CodeLineCounter :=
  { lines := lines, docstring_ranges := identify_docstrings (lines.length : Int) parsed }

/-- Loop body of `count_effective_lines`: iterate over the index list,
skipping docstring lines, blank lines (empty after `strip()`), and comment
lines (stripped line starting with `#`). -/
def countLoop (c : CodeLineCounter) : List Int → Nat → Nat
  | [], acc => acc
  | i :: rest, acc =>
    let stripped := (pyGetLine c.lines i).trim
    if i ∈ c.docstring_ranges then countLoop c rest acc
    else if stripped = "" then countLoop c rest acc
    else if stripped.startsWith "#" then countLoop c rest acc
    else countLoop c rest (acc + 1)

/-- `CodeLineCounter.count_effective_lines(start_line, end_line)`; the Python
defaults `start_line=0`, `end_line=None` are passed explicitly by callers of
this embedding.  `end_line = none` models `None` and becomes `len(lines)`. -/
def CodeLineCounter.count_effective_lines (c : CodeLineCounter)
    (start_line : Int) (end_line : Option Int) : Nat :=
  let e := end_line.getD (c.lines.length : Int)
  countLoop c (intRange start_line (min e (c.lines.length : Int))) 0

/-- Record appended by `FunctionExtractor._process_function` (the Python dict
with keys `name`, `type`, `class`, `start_line`, `end_line`,
`effective_lines`; the `class` key is named `cls` here since `class` is a
Lean keyword). -/
structure FunctionRecord where
  name : String
  type : String
  cls : Option String
  start_line : Int
  end_line : Int
  effective_lines : Nat

/-- Python truthiness of the `current_class` slot (`'method' if
self.current_class else 'function'`): `None` and the empty string are falsy. -/
def pyTruthy : Option String → Bool
  | none => false
  | some s => decide (s ≠ "")

/-- `FunctionExtractor._process_function`: start is `lineno - 1` (0-indexed);
the end line is `end_lineno` when available, otherwise the last body
statement's `end_lineno` (or its `lineno` when that too is missing), or
`start_line + 1` for an empty body; `effective_lines` is counted over
`(start_line, end_line)`; the recorded `start_line` is the 1-indexed
`node.lineno`. -/
def process_function (counter : CodeLineCounter) (current_class : Option String)
    (pos : PosInfo) (name : String) (body : StmtList) : FunctionRecord :=
  let start_line : Int := pos.lineno - 1
  let end_line : Int :=
    match pos.end_lineno with
    | some e => e
    | none =>
      match body.toList.getLast? with
      | some last =>
        match last.pos.end_lineno with
        | some e => e
        | none => last.pos.lineno
      | none => start_line + 1
  let effective_lines := counter.count_effective_lines start_line (some end_line)
  { name := name
    type := if pyTruthy current_class then "method" else "function"
    cls := current_class
    start_line := pos.lineno
    end_line := end_line
    effective_lines := effective_lines }

mutual
/-- One step of the `FunctionExtractor` walk with the mutable `current_class`
slot passed explicitly: returns the records emitted while visiting the
statement together with the slot's value when the visit returns.
`visit_ClassDef` saves the slot, installs the class name for the children and
restores the saved value; `visit_FunctionDef` / `visit_AsyncFunctionDef`
process the node and then visit the children with the slot unchanged. -/
def visitStmt (counter : CodeLineCounter) :
    Stmt → Option String → List FunctionRecord × Option String
  | .classDef _ name body, cur =>
    let r := visitStmtList counter body (some name)
    (r.1, cur)
  | .funcDef pos name body, cur =>
    let rec0 := process_function counter cur pos name body
    let r := visitStmtList counter body cur
    (rec0 :: r.1, r.2)
  | .asyncFuncDef pos name body, cur =>
    let rec0 := process_function counter cur pos name body
    let r := visitStmtList counter body cur
    (rec0 :: r.1, r.2)
  | .exprStr _ _, cur => ([], cur)
  | .exprOther _, cur => ([], cur)
  | .otherStmt _ children, cur => visitStmtList counter children cur
/-- Visit a list of sibling statements in order, threading the slot. -/
def visitStmtList (counter : CodeLineCounter) :
    StmtList → Option String → List FunctionRecord × Option String
  | .nil, cur => ([], cur)
  | .cons s rest, cur =>
    let r1 := visitStmt counter s cur
    let r2 := visitStmtList counter rest r1.2
    (r1.1 ++ r2.1, r2.2)
end

/-- `FunctionExtractor` run over a parsed module (`extractor.visit(tree)`
with `current_class` initially `None`). -/
def extract_functions (counter : CodeLineCounter) (m : Module) :
    List FunctionRecord :=
  (visitStmtList counter m.body none).1

/-- `extractor.functions` as `_check_file` leaves it: the walk's records on a
successful parse, `[]` after the `except SyntaxError` handler. -/
def fileFunctions (lines : List String) (parsed : Option Module) :
    List FunctionRecord :=
  match parsed with
  | some m => extract_functions (CodeLineCounter.ofSource lines parsed) m
  | none => []

/-- `FunctionIssue` dataclass. -/
structure FunctionIssue where
  name : String
  start_line : Int
  end_line : Int
  effective_lines : Nat
  type : String

/-- `FileIssue` dataclass. -/
structure FileIssue where
  file_path : String
  total_lines : Nat
  effective_lines : Nat
  functions : List FunctionIssue

/-- Build the `FunctionIssue` appended in `_check_file`'s loop. -/
def toFunctionIssue (f : FunctionRecord) : FunctionIssue :=
  { name := f.name, start_line := f.start_line, end_line := f.end_line,
    effective_lines := f.effective_lines, type := f.type }

/-- The per-function loop of `_check_file`: for each extracted function whose
effective count strictly exceeds the function threshold, create the file
issue on demand and append the function issue. -/
def checkLoop (path : String) (total eff : Nat) (fnT : Int) :
    List FunctionRecord → Option FileIssue → Option FileIssue
  | [], fi => fi
  | f :: rest, fi =>
    if (f.effective_lines : Int) > fnT then
      let base := fi.getD
        { file_path := path, total_lines := total, effective_lines := eff, functions := [] }
      checkLoop path total eff fnT rest
        (some { base with functions := base.functions ++ [toFunctionIssue f] })
    else checkLoop path total eff fnT rest fi

/-- `CodeHealthChecker._check_file` for one file, given its physical lines
and parse outcome: the produced `FileIssue` (appended to `self.issues`) or
`none` when no threshold is exceeded. -/
def check_file (path : String) (lines : List String) (parsed : Option Module)
    (fileT fnT : Int) : Option FileIssue :=
  let counter := CodeLineCounter.ofSource lines parsed
  let eff := counter.count_effective_lines 0 none
  let fi0 : Option FileIssue :=
    if (eff : Int) > fileT then
      some { file_path := path, total_lines := lines.length,
             effective_lines := eff, functions := [] }
    else none
  checkLoop path lines.length eff fnT (fileFunctions lines parsed) fi0

/-- Specification-side line predicate of the counter: a kept line is outside
the docstring set, non-blank after trimming, and not a comment line. -/
def effLine (c : CodeLineCounter) (i : Int) : Bool :=
  decide (i ∉ c.docstring_ranges) &&
    decide ((pyGetLine c.lines i).trim ≠ "") &&
    !((pyGetLine c.lines i).trim.startsWith "#")

mutual
/-- Bodies inspected for docstrings that live inside a statement: the bodies
of every `funcDef` / `asyncFuncDef` / `classDef` nested anywhere in it. -/
def stmtDefBodies : Stmt → List StmtList
  | .exprStr _ _ => []
  | .exprOther _ => []
  | .funcDef _ _ body => body :: stmtListDefBodies body
  | .asyncFuncDef _ _ body => body :: stmtListDefBodies body
  | .classDef _ _ body => body :: stmtListDefBodies body
  | .otherStmt _ children => stmtListDefBodies children
/-- Bodies of definitions nested anywhere in a list of statements. -/
def stmtListDefBodies : StmtList → List StmtList
  | .nil => []
  | .cons s rest => stmtDefBodies s ++ stmtListDefBodies rest
end

/-- All docstring-owning bodies of a module: the module body itself plus the
body of every nested definition. -/
def allDefBodies (m : Module) : List StmtList :=
  m.body :: stmtListDefBodies m.body

/-- Parser contract on one body: when its first statement is a docstring
candidate, its `lineno` is at least 1 (CPython never emits smaller). -/
def firstPosOk (b : StmtList) : Bool :=
  match bodyDocstring b with
  | some (p, _) => decide (1 ≤ p.lineno)
  | none => true

/-- Parser contract over a whole parse outcome. -/
def parsedOk : Option Module → Bool
  | none => true
  | some m => (allDefBodies m).all firstPosOk

/-! ### Helper lemmas -/

theorem mem_intRange {a b i : Int} : i ∈ intRange a b ↔ a ≤ i ∧ i < b := by
  simp only [intRange, List.mem_map, List.mem_range]
  constructor
  · rintro ⟨k, hk, rfl⟩
    omega
  · rintro ⟨h1, h2⟩
    exact ⟨(i - a).toNat, by omega, by omega⟩

theorem length_intRange (a b : Int) : (intRange a b).length = (b - a).toNat := by
  rw [intRange, List.length_map, List.length_range]

theorem intRange_eq_nil {a b : Int} (h : b ≤ a) : intRange a b = [] := by
  simp only [intRange, List.map_eq_nil_iff, List.range_eq_nil]
  omega

theorem countLoop_eq (c : CodeLineCounter) :
    ∀ (l : List Int) (acc : Nat), countLoop c l acc = acc + l.countP (effLine c)
  | [], acc => by simp [countLoop]
  | i :: rest, acc => by
    have ih := countLoop_eq c rest
    by_cases h1 : i ∈ c.docstring_ranges
    · simp [countLoop, effLine, h1, ih, List.countP_cons]
    · by_cases h2 : (pyGetLine c.lines i).trim = ""
      · simp [countLoop, effLine, h1, h2, ih, List.countP_cons]
      · by_cases h3 : (pyGetLine c.lines i).trim.startsWith "#"
        · simp [countLoop, effLine, h1, h2, h3, ih, List.countP_cons]
        · have he : effLine c i = true := by simp [effLine, h1, h2, h3]
          simp only [countLoop, ih, List.countP_cons, he, if_pos, if_neg, h1, h2, h3]
          simp [h1, h2, h3]
          omega

theorem count_effective_lines_eq (c : CodeLineCounter) (s : Int) (e : Option Int) :
    c.count_effective_lines s e
      = (intRange s (min (e.getD (c.lines.length : Int)) (c.lines.length : Int))).countP
          (effLine c) := by
  simp [CodeLineCounter.count_effective_lines, countLoop_eq]

theorem countP_range_getD (p : String → Bool) :
    ∀ lines : List String,
      (List.range lines.length).countP (fun k => p (lines.getD k "")) = lines.countP p
  | [] => by simp
  | a :: as => by
    rw [List.length_cons, List.range_succ_eq_map]
    simp only [List.countP_cons, List.countP_map, List.getD_cons_zero, Function.comp_def,
      List.getD_cons_succ]
    rw [countP_range_getD p as]

theorem bodyDocstring_eq_some {b : StmtList} {p : PosInfo} {s : String} :
    bodyDocstring b = some (p, s) ↔ b.toList.head? = some (Stmt.exprStr p s) := by
  cases b with
  | nil => simp [bodyDocstring, StmtList.toList]
  | cons s0 rest =>
    cases s0 <;> simp [bodyDocstring, StmtList.toList]

theorem mem_ownDocRange {len i : Int} {b : StmtList} :
    i ∈ ownDocRange len b
      ↔ ∃ p s, bodyDocstring b = some (p, s)
          ∧ p.lineno - 1 ≤ i ∧ i < min (docstringEnd p s) len := by
  cases hb : bodyDocstring b with
  | none => simp [ownDocRange, hb]
  | some ps =>
    obtain ⟨p, s⟩ := ps
    simp only [ownDocRange, hb, mem_intRange]
    constructor
    · rintro ⟨h1, h2⟩
      exact ⟨p, s, rfl, h1, h2⟩
    · rintro ⟨p', s', hp, h1, h2⟩
      obtain ⟨rfl, rfl⟩ : p' = p ∧ s' = s := by
        simpa [eq_comm] using hp
      exact ⟨h1, h2⟩

mutual
theorem mem_stmtDocRanges (len i : Int) :
    ∀ s : Stmt,
      i ∈ stmtDocRanges len s ↔ ∃ b ∈ stmtDefBodies s, i ∈ ownDocRange len b
  | .exprStr p v => by simp [stmtDocRanges, stmtDefBodies]
  | .exprOther p => by simp [stmtDocRanges, stmtDefBodies]
  | .funcDef p n body => by
    rw [stmtDocRanges, stmtDefBodies]
    simp only [List.mem_append, List.mem_cons, mem_stmtListDocRanges len i body]
    constructor
    · rintro (h | ⟨b, hb, h⟩)
      · exact ⟨body, Or.inl rfl, h⟩
      · exact ⟨b, Or.inr hb, h⟩
    · rintro ⟨b, rfl | hb, h⟩
      · exact Or.inl h
      · exact Or.inr ⟨b, hb, h⟩
  | .asyncFuncDef p n body => by
    rw [stmtDocRanges, stmtDefBodies]
    simp only [List.mem_append, List.mem_cons, mem_stmtListDocRanges len i body]
    constructor
    · rintro (h | ⟨b, hb, h⟩)
      · exact ⟨body, Or.inl rfl, h⟩
      · exact ⟨b, Or.inr hb, h⟩
    · rintro ⟨b, rfl | hb, h⟩
      · exact Or.inl h
      · exact Or.inr ⟨b, hb, h⟩
  | .classDef p n body => by
    rw [stmtDocRanges, stmtDefBodies]
    simp only [List.mem_append, List.mem_cons, mem_stmtListDocRanges len i body]
    constructor
    · rintro (h | ⟨b, hb, h⟩)
      · exact ⟨body, Or.inl rfl, h⟩
      · exact ⟨b, Or.inr hb, h⟩
    · rintro ⟨b, rfl | hb, h⟩
      · exact Or.inl h
      · exact Or.inr ⟨b, hb, h⟩
  | .otherStmt p children => by
    rw [stmtDocRanges, stmtDefBodies]
    exact mem_stmtListDocRanges len i children
theorem mem_stmtListDocRanges (len i : Int) :
    ∀ sl : StmtList,
      i ∈ stmtListDocRanges len sl ↔ ∃ b ∈ stmtListDefBodies sl, i ∈ ownDocRange len b
  | .nil => by simp [stmtListDocRanges, stmtListDefBodies]
  | .cons s rest => by
    rw [stmtListDocRanges, stmtListDefBodies]
    simp only [List.mem_append, mem_stmtDocRanges len i s, mem_stmtListDocRanges len i rest]
    constructor
    · rintro (⟨b, hb, h⟩ | ⟨b, hb, h⟩)
      · exact ⟨b, Or.inl hb, h⟩
      · exact ⟨b, Or.inr hb, h⟩
    · rintro ⟨b, hb | hb, h⟩
      · exact Or.inl ⟨b, hb, h⟩
      · exact Or.inr ⟨b, hb, h⟩
end

theorem checkLoop_some (path : String) (total eff : Nat) (fnT : Int) :
    ∀ (funcs : List FunctionRecord) (b : FileIssue),
      checkLoop path total eff fnT funcs (some b)
        = some { b with functions := b.functions
            ++ (funcs.filter (fun f => (f.effective_lines : Int) > fnT)).map toFunctionIssue }
  | [], b => by simp [checkLoop]
  | f :: rest, b => by
    by_cases h : (f.effective_lines : Int) > fnT
    · rw [checkLoop]
      simp only [h, if_true, if_pos, Option.getD_some]
      rw [checkLoop_some path total eff fnT rest]
      simp [List.filter_cons, h]
    · rw [checkLoop]
      simp only [h, if_false, if_neg, not_false_iff]
      rw [checkLoop_some path total eff fnT rest]
      simp [List.filter_cons, h]

theorem checkLoop_none (path : String) (total eff : Nat) (fnT : Int) :
    ∀ funcs : List FunctionRecord,
      checkLoop path total eff fnT funcs none
        = if ∃ f ∈ funcs, (f.effective_lines : Int) > fnT then
            some { file_path := path, total_lines := total, effective_lines := eff,
                   functions := (funcs.filter
                      (fun f => (f.effective_lines : Int) > fnT)).map toFunctionIssue }
          else none
  | [] => by simp [checkLoop]
  | f :: rest => by
    by_cases h : (f.effective_lines : Int) > fnT
    · rw [checkLoop]
      simp only [h, if_true, if_pos, Option.getD_none]
      rw [checkLoop_some path total eff fnT rest]
      have hc : ∃ g ∈ f :: rest, (g.effective_lines : Int) > fnT := ⟨f, List.mem_cons_self f rest, h⟩
      rw [if_pos hc]
      simp [List.filter_cons, h]
    · rw [checkLoop]
      simp only [h, if_false, if_neg, not_false_iff]
      rw [checkLoop_none path total eff fnT rest]
      by_cases hr : ∃ g ∈ rest, (g.effective_lines : Int) > fnT
      · have hc : ∃ g ∈ f :: rest, (g.effective_lines : Int) > fnT := by
          obtain ⟨g, hg, hgt⟩ := hr
          exact ⟨g, List.mem_cons_of_mem f hg, hgt⟩
        rw [if_pos hr, if_pos hc]
        simp [List.filter_cons, h]
      · have hc : ¬ ∃ g ∈ f :: rest, (g.effective_lines : Int) > fnT := by
          rintro ⟨g, hg, hgt⟩
          rcases List.mem_cons.mp hg with rfl | hg'
          · exact h hgt
          · exact hr ⟨g, hg', hgt⟩
        rw [if_neg hr, if_neg hc]

theorem pyGetLine_natCast (lines : List String) (k : Nat) (hk : k < lines.length) :
    pyGetLine lines (k : Int) = lines.getD k "" := by
  have h0 : ¬ ((k : Int) < 0) := by omega
  have h1 : (0 : Int) ≤ (k : Int) ∧ (k : Int) < (lines.length : Int) := ⟨by omega, by omega⟩
  have h2 : ((k : Int)).toNat = k := by omega
  simp only [pyGetLine]
  rw [if_neg h0, if_pos h1, h2]

theorem mem_docstring_ranges {lines : List String} {m : Module} {i : Int} :
    i ∈ (CodeLineCounter.ofSource lines (some m)).docstring_ranges
      ↔ ∃ b ∈ allDefBodies m, i ∈ ownDocRange (lines.length : Int) b := by
  simp only [CodeLineCounter.ofSource, identify_docstrings, allDefBodies, List.mem_append,
    List.mem_cons, mem_stmtListDocRanges]
  constructor
  · rintro (h | ⟨b, hb, h⟩)
    · exact ⟨m.body, Or.inl rfl, h⟩
    · exact ⟨b, Or.inr hb, h⟩
  · rintro ⟨b, rfl | hb, h⟩
    · exact Or.inl h
    · exact Or.inr ⟨b, hb, h⟩

/-! ### Claim theorems -/

/-- C1 (amended): for every definition node processed by the extractor, the
recorded end line equals the parser-supplied end line when present; when end
line metadata is unavailable it equals the end line of the last body
statement, or the recorded 1-indexed start line itself (the code computes
`(lineno - 1) + 1 = lineno`) when the body is empty; and the recorded
effective count is `count_effective_lines (startLine - 1, endLine)` over the
recorded bounds.  The original claim's `startLine + 1` for the empty-body
case is refuted by `C1_counterexample`. -/
theorem C1_process_function (c : CodeLineCounter) (cur : Option String)
    (pos : PosInfo) (nm : String) (body : StmtList) :
    (∀ e, pos.end_lineno = some e → (process_function c cur pos nm body).end_line = e) ∧
    (pos.end_lineno = none →
      ∀ last e2, body.toList.getLast? = some last → last.pos.end_lineno = some e2 →
        (process_function c cur pos nm body).end_line = e2) ∧
    (pos.end_lineno = none → body = StmtList.nil →
      (process_function c cur pos nm body).end_line
        = (process_function c cur pos nm body).start_line) ∧
    (process_function c cur pos nm body).effective_lines
      = c.count_effective_lines ((process_function c cur pos nm body).start_line - 1)
          (some (process_function c cur pos nm body).end_line) := by
  refine ⟨?_, ?_, ?_, ?_⟩
  · intro e he
    simp [process_function, he]
  · intro hn last e2 hl he
    simp [process_function, hn, hl, he]
  · intro hn hb
    subst hb
    simp [process_function, hn, StmtList.toList]
  · cases he : pos.end_lineno <;> simp [process_function, he]

/-- C1 counterexample: a definition node at line 5 with an empty body and no
end-line metadata is recorded with `end_line = 5`, which equals the recorded
1-indexed `start_line`, not `start_line + 1` as the claim states. -/
theorem C1_counterexample :
    ¬ ((process_function (CodeLineCounter.ofSource [] none) none
          { lineno := 5, end_lineno := none } "f" StmtList.nil).end_line
        = (process_function (CodeLineCounter.ofSource [] none) none
          { lineno := 5, end_lineno := none } "f" StmtList.nil).start_line + 1) := by
  decide

/-- C1 witness: the amended theorem applied at a node with parser-supplied
end line 9. -/
theorem C1_witness :
    (process_function (CodeLineCounter.ofSource [] none) none
      { lineno := 3, end_lineno := some 9 } "g" StmtList.nil).end_line = 9 :=
  (C1_process_function (CodeLineCounter.ofSource [] none) none
    { lineno := 3, end_lineno := some 9 } "g" StmtList.nil).1 9 rfl

/-- C2: on malformed input (a parse failure) the analysis is a total function
that degrades: the documentation-range set is empty, the extracted function
list is empty, and the file-level effective count equals the number of
physical lines that are neither blank after trimming nor comment-only. -/
theorem C2_degraded_mode (lines : List String) :
    (CodeLineCounter.ofSource lines none).docstring_ranges = [] ∧
    fileFunctions lines none = [] ∧
    (CodeLineCounter.ofSource lines none).count_effective_lines 0 none
      = lines.countP (fun l => decide (l.trim ≠ "") && !(l.trim.startsWith "#")) := by
  refine ⟨rfl, rfl, ?_⟩
  rw [count_effective_lines_eq]
  simp only [CodeLineCounter.ofSource, identify_docstrings, Option.getD_none, min_self]
  rw [intRange]
  simp only [Int.sub_zero]
  have hlen : (((lines.length : Int))).toNat = lines.length := by omega
  rw [hlen, List.countP_map]
  refine Eq.trans (List.countP_congr ?_)
    (countP_range_getD (fun l => decide (l.trim ≠ "") && !(l.trim.startsWith "#")) lines)
  intro k hk
  have hk' := List.mem_range.mp hk
  simp [Function.comp, effLine, pyGetLine_natCast lines k hk', CodeLineCounter.ofSource,
    identify_docstrings]

/-- C3: for a parsed source and a line index inside the file, the index is in
the documentation-range set exactly when it lies within the span (0-indexed
start line inclusive to end line inclusive, i.e. strictly below the exclusive
bound `docstringEnd`, which is the parser-supplied end line or its newline
estimate) of a bare single string-literal expression standing as the first
statement of the module body or of some class/function/method body; in
particular a string-literal statement that is not the first statement of such
a body is never added. -/
theorem C3_docstring_membership (lines : List String) (m : Module) (i : Int)
    (h : i < (lines.length : Int)) :
    i ∈ (CodeLineCounter.ofSource lines (some m)).docstring_ranges
      ↔ ∃ b ∈ allDefBodies m, ∃ p v, b.toList.head? = some (Stmt.exprStr p v)
          ∧ p.lineno - 1 ≤ i ∧ i < docstringEnd p v := by
  rw [mem_docstring_ranges]
  constructor
  · rintro ⟨b, hb, hmem⟩
    rw [mem_ownDocRange] at hmem
    obtain ⟨p, v, hd, h1, h2⟩ := hmem
    exact ⟨b, hb, p, v, bodyDocstring_eq_some.mp hd, h1, (lt_min_iff.mp h2).1⟩
  · rintro ⟨b, hb, p, v, hd, h1, h2⟩
    refine ⟨b, hb, ?_⟩
    rw [mem_ownDocRange]
    exact ⟨p, v, bodyDocstring_eq_some.mpr hd, h1, lt_min_iff.mpr ⟨h2, h⟩⟩

/-- C3 witness: the characterisation applied to a three-line file with a
module docstring spanning lines 1-2, at index 1. -/
theorem C3_witness :
    ((1 : Int) < ((["a", "b", "c"] : List String).length : Int)) ∧
    ((1 : Int) ∈ (CodeLineCounter.ofSource ["a", "b", "c"]
        (some ⟨StmtList.cons (Stmt.exprStr { lineno := 1, end_lineno := some 2 } "d")
          StmtList.nil⟩)).docstring_ranges
      ↔ ∃ b ∈ allDefBodies ⟨StmtList.cons
            (Stmt.exprStr { lineno := 1, end_lineno := some 2 } "d") StmtList.nil⟩,
          ∃ p v, b.toList.head? = some (Stmt.exprStr p v)
            ∧ p.lineno - 1 ≤ (1 : Int) ∧ (1 : Int) < docstringEnd p v) :=
  ⟨by decide, C3_docstring_membership ["a", "b", "c"]
    ⟨StmtList.cons (Stmt.exprStr { lineno := 1, end_lineno := some 2 } "d") StmtList.nil⟩
    1 (by decide)⟩

/-- C4: `count_effective_lines` returns exactly the number of 0-indexed line
indices in `[startLine, min(endLine, len(lines)))` that are outside the
documentation-range set, non-blank after trimming, and whose trimmed text
does not begin with the comment marker; each surviving line contributes
exactly one. -/
theorem C4_count_characterisation (c : CodeLineCounter) (s : Int) (e : Option Int) :
    c.count_effective_lines s e
      = ((intRange s (min (e.getD (c.lines.length : Int)) (c.lines.length : Int))).filter
          (fun i => decide (i ∉ c.docstring_ranges
            ∧ (pyGetLine c.lines i).trim ≠ ""
            ∧ (pyGetLine c.lines i).trim.startsWith "#" = false))).length := by
  rw [count_effective_lines_eq, ← List.countP_eq_length_filter]
  refine List.countP_congr ?_
  intro i _
  cases hx : (pyGetLine c.lines i).trim.startsWith "#" <;> simp [effLine, hx]

/-- C5: a visited definition is recorded as a method exactly when the
enclosing-class slot is truthy (non-`None` and non-empty) at the time it is
visited, regardless of intervening function scopes: visiting a function
definition emits its own record under the current slot and visits its body
with the slot unchanged, so that in a class containing a function that itself
contains a nested function, every produced record — the doubly-nested one
included — has kind `method` and carries that class's name. -/
theorem C5_method_classification (c : CodeLineCounter) (cur cur0 : Option String)
    (pos cpos fpos gpos : PosInfo) (nm cname fname gname : String)
    (body : StmtList) (h : cname ≠ "") :
    ((process_function c cur pos nm body).type = "method" ↔ pyTruthy cur = true) ∧
    ((visitStmt c (Stmt.funcDef pos nm body) cur).1
      = process_function c cur pos nm body :: (visitStmtList c body cur).1) ∧
    (∀ r ∈ (visitStmt c
        (Stmt.classDef cpos cname
          (StmtList.cons
            (Stmt.funcDef fpos fname
              (StmtList.cons (Stmt.funcDef gpos gname StmtList.nil) StmtList.nil))
            StmtList.nil)) cur0).1,
      r.type = "method" ∧ r.cls = some cname ∧ (r.name = fname ∨ r.name = gname)) := by
  refine ⟨?_, ?_, ?_⟩
  · cases hcur : pyTruthy cur <;> simp [process_function, hcur]
  · rw [visitStmt]
  · intro r hr
    simp only [visitStmt, visitStmtList, List.append_nil, List.mem_cons,
      List.not_mem_nil, or_false] at hr
    have htype : pyTruthy (some cname) = true := by
      simp [pyTruthy, h]
    rcases hr with rfl | rfl
    · exact ⟨by simp [process_function, htype], rfl, Or.inl rfl⟩
    · exact ⟨by simp [process_function, htype], rfl, Or.inr rfl⟩

/-- C5 witness: the classification theorem applied with class name `"A"`. -/
theorem C5_witness :
    ("A" : String) ≠ "" ∧
    (((process_function (CodeLineCounter.ofSource [] none) (some "A")
        { lineno := 2, end_lineno := some 3 } "m" StmtList.nil).type = "method"
      ↔ pyTruthy (some "A") = true) ∧
    ((visitStmt (CodeLineCounter.ofSource [] none)
        (Stmt.funcDef { lineno := 2, end_lineno := some 3 } "m" StmtList.nil) (some "A")).1
      = process_function (CodeLineCounter.ofSource [] none) (some "A")
          { lineno := 2, end_lineno := some 3 } "m" StmtList.nil
        :: (visitStmtList (CodeLineCounter.ofSource [] none) StmtList.nil (some "A")).1) ∧
    (∀ r ∈ (visitStmt (CodeLineCounter.ofSource [] none)
        (Stmt.classDef { lineno := 1, end_lineno := some 6 } "A"
          (StmtList.cons
            (Stmt.funcDef { lineno := 2, end_lineno := some 5 } "f"
              (StmtList.cons
                (Stmt.funcDef { lineno := 3, end_lineno := some 4 } "g" StmtList.nil)
                StmtList.nil))
            StmtList.nil)) none).1,
      r.type = "method" ∧ r.cls = some "A" ∧ (r.name = "f" ∨ r.name = "g"))) :=
  ⟨by decide, C5_method_classification (CodeLineCounter.ofSource [] none) (some "A") none
    { lineno := 2, end_lineno := some 3 } { lineno := 1, end_lineno := some 6 }
    { lineno := 2, end_lineno := some 5 } { lineno := 3, end_lineno := some 4 }
    "m" "A" "f" "g" StmtList.nil (by decide)⟩

/-- C6: under the parser contract that every first-statement docstring starts
at line 1 or later, every recorded documentation-range index lies in
`[0, len(lines))` — even when the reported or estimated docstring end line
exceeds the file length (the code clips at `len(lines)`). -/
theorem C6_ranges_in_bounds (lines : List String) (parsed : Option Module) (i : Int)
    (hok : parsedOk parsed = true)
    (hmem : i ∈ (CodeLineCounter.ofSource lines parsed).docstring_ranges) :
    0 ≤ i ∧ i < (lines.length : Int) := by
  cases parsed with
  | none => simp [CodeLineCounter.ofSource, identify_docstrings] at hmem
  | some m =>
    rw [mem_docstring_ranges] at hmem
    obtain ⟨b, hb, hmem⟩ := hmem
    rw [mem_ownDocRange] at hmem
    obtain ⟨p, s, hd, h1, h2⟩ := hmem
    simp only [parsedOk, List.all_eq_true] at hok
    have hok' := hok b hb
    rw [firstPosOk, hd] at hok'
    have hline : (1 : Int) ≤ p.lineno := of_decide_eq_true hok'
    have h2' := lt_min_iff.mp h2
    exact ⟨by omega, h2'.2⟩

/-- C6 witness: a two-line file whose module docstring reports end line 100;
index 1 is recorded and lies in `[0, 2)`. -/
theorem C6_witness :
    parsedOk (some ⟨StmtList.cons
        (Stmt.exprStr { lineno := 1, end_lineno := some 100 } "d") StmtList.nil⟩) = true ∧
    (1 : Int) ∈ (CodeLineCounter.ofSource ["x", "y"]
      (some ⟨StmtList.cons (Stmt.exprStr { lineno := 1, end_lineno := some 100 } "d")
        StmtList.nil⟩)).docstring_ranges ∧
    (0 ≤ (1 : Int) ∧ (1 : Int) < ((["x", "y"] : List String).length : Int)) :=
  ⟨by decide, by decide, C6_ranges_in_bounds ["x", "y"]
    (some ⟨StmtList.cons (Stmt.exprStr { lineno := 1, end_lineno := some 100 } "d")
      StmtList.nil⟩) 1 (by decide) (by decide)⟩

/-- C7: the effective count of the 1-indexed span `[startLine, endLine]`,
counted as the code does over `(startLine - 1, endLine)`, is at most the
span's physical length `endLine - startLine + 1`; and the whole-file
effective count is at most the total number of physical lines. -/
theorem C7_count_le_span (c : CodeLineCounter) (s e : Int) (h : s ≤ e) :
    ((c.count_effective_lines (s - 1) (some e) : Int) ≤ e - s + 1) ∧
    c.count_effective_lines 0 none ≤ c.lines.length := by
  constructor
  · have h1 := count_effective_lines_eq c (s - 1) (some e)
    simp only [Option.getD_some] at h1
    have h2 : c.count_effective_lines (s - 1) (some e)
        ≤ (intRange (s - 1) (min e (c.lines.length : Int))).length := by
      rw [h1]
      exact List.countP_le_length _
    rw [length_intRange] at h2
    omega
  · have h1 := count_effective_lines_eq c 0 none
    simp only [Option.getD_none, min_self] at h1
    have h2 : c.count_effective_lines 0 none
        ≤ (intRange 0 (c.lines.length : Int)).length := by
      rw [h1]
      exact List.countP_le_length _
    rw [length_intRange] at h2
    omega

/-- C7 witness: the bound applied to the one-line span `[1, 1]` of a one-line
file. -/
theorem C7_witness :
    ((1 : Int) ≤ 1) ∧
    ((((CodeLineCounter.ofSource ["a"] none).count_effective_lines (1 - 1) (some 1) : Int)
        ≤ 1 - 1 + 1) ∧
      (CodeLineCounter.ofSource ["a"] none).count_effective_lines 0 none
        ≤ (["a"] : List String).length) :=
  ⟨by decide, C7_count_le_span (CodeLineCounter.ofSource ["a"] none) 1 1 (by decide)⟩

/-- C8: `_check_file` produces a file-level violation record exactly when the
file's effective count strictly exceeds the file threshold or some extracted
function's effective count strictly exceeds the function threshold; and the
record's function list is exactly the exceeding extracted functions, in
extraction order. -/
theorem C8_check_file (path : String) (lines : List String) (parsed : Option Module)
    (fileT fnT : Int) :
    check_file path lines parsed fileT fnT
      = if ((CodeLineCounter.ofSource lines parsed).count_effective_lines 0 none : Int) > fileT
          ∨ ∃ f ∈ fileFunctions lines parsed, (f.effective_lines : Int) > fnT then
          some { file_path := path, total_lines := lines.length,
                 effective_lines :=
                   (CodeLineCounter.ofSource lines parsed).count_effective_lines 0 none,
                 functions := ((fileFunctions lines parsed).filter
                    (fun f => (f.effective_lines : Int) > fnT)).map toFunctionIssue }
        else none := by
  rw [check_file]
  by_cases hf : ((CodeLineCounter.ofSource lines parsed).count_effective_lines 0 none : Int)
      > fileT
  · rw [if_pos hf, checkLoop_some, if_pos (Or.inl hf)]
    simp
  · rw [if_neg hf, checkLoop_none]
    by_cases hx : ∃ f ∈ fileFunctions lines parsed, (f.effective_lines : Int) > fnT
    · rw [if_pos hx, if_pos (Or.inr hx)]
    · rw [if_neg hx, if_neg (by rintro (h | h) <;> [exact hf h; exact hx h])]

/-- C9: `visit_ClassDef` restores the enclosing-class slot: after visiting a
class definition with an arbitrary nested body the slot equals the value it
held before the call, and consequently the records of the class's sibling
statements are computed with the unchanged slot. -/
theorem C9_class_slot_restored (c : CodeLineCounter) (pos : PosInfo) (nm : String)
    (body rest : StmtList) (cur : Option String) :
    (visitStmt c (Stmt.classDef pos nm body) cur).2 = cur ∧
    (visitStmtList c (StmtList.cons (Stmt.classDef pos nm body) rest) cur).1
      = (visitStmt c (Stmt.classDef pos nm body) cur).1
        ++ (visitStmtList c rest cur).1 := by
  constructor
  · rw [visitStmt]
  · rw [visitStmtList]
    simp only [visitStmt]

/-- C10: `count_effective_lines` is total over all integer bounds: whenever
`startLine ≥ min(endLine, len(lines))` — a start beyond the file or an
inverted range included — the iteration range is empty, so the function
reads no line index at all and returns 0. -/
theorem C10_empty_range (c : CodeLineCounter) (s : Int) (e : Option Int)
    (h : min (e.getD (c.lines.length : Int)) (c.lines.length : Int) ≤ s) :
    c.count_effective_lines s e = 0
      ∧ intRange s (min (e.getD (c.lines.length : Int)) (c.lines.length : Int)) = [] := by
  have hr := intRange_eq_nil h
  refine ⟨?_, hr⟩
  rw [count_effective_lines_eq, hr]
  simp

/-- C10 witness: a start line of 5 on a one-line file yields an empty
iteration range and a zero count. -/
theorem C10_witness :
    (min ((none : Option Int).getD (((["a"] : List String).length : Int)))
        (((["a"] : List String).length : Int)) ≤ (5 : Int)) ∧
    ((CodeLineCounter.ofSource ["a"] none).count_effective_lines 5 none = 0
      ∧ intRange 5 (min ((none : Option Int).getD
          (((CodeLineCounter.ofSource ["a"] none).lines.length : Int)))
          (((CodeLineCounter.ofSource ["a"] none).lines.length : Int))) = []) :=
  ⟨by decide, C10_empty_range (CodeLineCounter.ofSource ["a"] none) 5 none (by decide)⟩

end CodeHealth
